import Mathlib

/-!
Shallow embedding of `src/palworld_rcon/source_rcon.py`, the Source RCON
client of palworld_dedi_helper: the packet codec (`RconPacket.pack`,
`RconPacket.unpack`), the receive loop (`SourceRcon.receive_all`), the
authentication check (`SourceRcon.check_auth_response`) and the command
facade (`SourceRcon.send_command`), together with theorems about them.

Python strings are modelled as lists of Unicode code points (`PyStr`),
byte strings as lists of `Nat` below 256.  Python exceptions are modelled
with `Except PyErr`.  Machine int32 values are `Int` with explicit range
checks, as `struct.pack "<i"` performs.
-/

namespace PalworldRcon

/-- A Python `str`, as its list of Unicode code points. -/
abbrev PyStr := List Nat

/-- Code points of a Lean string literal, for writing concrete Python strings. -/
def pyOfString (s : String) : PyStr := s.data.map Char.toNat

/-- The Python exceptions the embedded code can raise:
`UnicodeEncodeError` from `str.encode("ascii")`, `IndexError` from `args[0]`,
`struct.error` from `struct.pack` on an out-of-range int32. -/
inductive PyErr where
  | unicodeEncodeError
  | indexError
  | structError
  deriving DecidableEq, Repr

/-- `s.encode("ascii")`: each code point below 128 becomes one byte, any
other code point raises `UnicodeEncodeError` (modelled as `none`). -/
def pyEncodeAscii (s : PyStr) : Option (List Nat) :=
  if s.all (fun c => c < 128) then some s else none

/-! ### UTF-8 decoding with `errors="replace"`

`bytes.decode("utf-8", errors="replace")` as a byte-at-a-time state
machine: `need` continuation bytes are still expected, `acc` holds the
accumulated code-point bits, and `lo`/`hi` bound the next acceptable
continuation byte (the first continuation byte after a lead of `E0`, `ED`,
`F0` or `F4` has a restricted range, which also rejects overlong encodings
and surrogates).  An invalid byte contributes one replacement character
U+FFFD for the maximal subpart consumed so far and is then reprocessed as
a fresh sequence start, matching CPython's replacement behaviour. -/

/-- State of the UTF-8 decoding machine. -/
structure Utf8State where
  acc : Nat
  need : Nat
  lo : Nat
  hi : Nat
  deriving DecidableEq, Repr

/-- The state expecting a fresh sequence start. -/
def utf8Init : Utf8State := ⟨0, 0, 0, 0⟩

/-- Process one byte as the start of a UTF-8 sequence: emitted code points
and the successor state. -/
def utf8Start (b : Nat) : List Nat × Utf8State :=
  if b < 128 then ([b], utf8Init)
  else if b < 194 then ([65533], utf8Init)
  else if b < 224 then ([], ⟨b % 32, 1, 128, 191⟩)
  else if b = 224 then ([], ⟨b % 16, 2, 160, 191⟩)
  else if b = 237 then ([], ⟨b % 16, 2, 128, 159⟩)
  else if b < 240 then ([], ⟨b % 16, 2, 128, 191⟩)
  else if b = 240 then ([], ⟨b % 8, 3, 144, 191⟩)
  else if b = 244 then ([], ⟨b % 8, 3, 128, 143⟩)
  else if b < 245 then ([], ⟨b % 8, 3, 128, 191⟩)
  else ([65533], utf8Init)

/-- Run the UTF-8 decoding machine over the remaining bytes. -/
def utf8DecodeAux : Utf8State → List Nat → List Nat
  | st, [] => if st.need = 0 then [] else [65533]
  | st, b :: rest =>
    if st.need = 0 then
      (utf8Start b).1 ++ utf8DecodeAux (utf8Start b).2 rest
    else if st.lo ≤ b ∧ b ≤ st.hi then
      if st.need = 1 then
        (st.acc * 64 + b % 64) :: utf8DecodeAux utf8Init rest
      else
        utf8DecodeAux ⟨st.acc * 64 + b % 64, st.need - 1, 128, 191⟩ rest
    else
      65533 :: ((utf8Start b).1 ++ utf8DecodeAux (utf8Start b).2 rest)

/-- `bytes.decode("utf-8", errors="replace")`. -/
def utf8DecodeReplace (l : List Nat) : PyStr := utf8DecodeAux utf8Init l

/-! ### Little-endian int32, as `struct.pack "<i"` / `struct.unpack "<i"` -/

/-- Whether `struct.pack "<i"` accepts the integer. -/
def i32InRange (n : Int) : Prop := -2147483648 ≤ n ∧ n < 2147483648

instance (n : Int) : Decidable (i32InRange n) := by
  unfold i32InRange; infer_instance

/-- `struct.pack "<i" n`: the four little-endian bytes of `n` two's-complement. -/
def encI32 (n : Int) : List Nat :=
  let m := (n % 4294967296).toNat
  [m % 256, m / 256 % 256, m / 65536 % 256, m / 16777216 % 256]

/-- `struct.unpack "<i"` of four bytes: little-endian unsigned value,
reinterpreted as a signed int32. -/
def decI32 (bs : List Nat) : Int :=
  let u : Nat := bs.foldr (fun b acc => b + 256 * acc) 0
  if u < 2147483648 then (u : Int) else (u : Int) - 4294967296

/-! ### The packet codec (`RconPacket`) -/

/-- `RconPacket.RCON_PACKET_HEADER_LENGTH`. -/
def RCON_PACKET_HEADER_LENGTH : Nat := 12

/-- `RconPacket.RCON_PACKET_TERMINATOR_LENGTH`. -/
def RCON_PACKET_TERMINATOR_LENGTH : Nat := 2

/-- `RCONPacketType.SERVERDATA_AUTH.value`. -/
def SERVERDATA_AUTH : Int := 3

/-- `RCONPacketType.SERVERDATA_AUTH_RESPONSE.value` (also the value of the
alias `SERVERDATA_EXECCOMMAND`). -/
def SERVERDATA_AUTH_RESPONSE : Int := 2

/-- `RCONPacketType.SERVERDATA_EXECCOMMAND.value`. -/
def SERVERDATA_EXECCOMMAND : Int := 2

/-- `RCONPacketType.SERVERDATA_RESPONSE_VALUE.value`. -/
def SERVERDATA_RESPONSE_VALUE : Int := 0

/-- The `RconPacket` dataclass as `unpack` populates it: numeric fields are
`none` when left at their `None` default. -/
structure RconPacket where
  size : Option Int
  id : Option Int
  type : Option Int
  body : PyStr
  deriving DecidableEq, Repr

/-- `RconPacket.pack`, as a function of the packet's `body`, `id` and
`type.value` fields: encode the body in ASCII, append the terminator byte,
set `size = len(body_encoded) + 10`, and emit
`struct.pack("<iii", size, id, type) + body_encoded + terminator`.
A non-ASCII body raises `UnicodeEncodeError`; an out-of-int32-range field
raises `struct.error`. -/
def pack (body : PyStr) (request_id : Int) (typeVal : Int) : Except PyErr (List Nat) :=
  match pyEncodeAscii body with
  | none => .error .unicodeEncodeError
  | some bodyBytes =>
    let body_encoded := bodyBytes ++ [0]
    let size : Int := (body_encoded.length : Int) + 10
    if i32InRange size ∧ i32InRange request_id ∧ i32InRange typeVal then
      .ok (encI32 size ++ encI32 request_id ++ encI32 typeVal ++ body_encoded ++ [0])
    else .error .structError

/-- `RconPacket.unpack`: packets shorter than the 12-byte header yield the
sentinel packet with body `"Invalid packet"`; otherwise the three header
fields are read as little-endian int32 and the body is the slice
`packet[12:-2]` decoded as UTF-8 with replacement. -/
def unpack (packet : List Nat) : RconPacket :=
  if packet.length < RCON_PACKET_HEADER_LENGTH then
    ⟨none, none, none, pyOfString "Invalid packet"⟩
  else
    let size := decI32 (packet.take 4)
    let request_id := decI32 ((packet.drop 4).take 4)
    let typeVal := decI32 ((packet.drop 8).take 4)
    let body := utf8DecodeReplace
      ((packet.take (packet.length - RCON_PACKET_TERMINATOR_LENGTH)).drop
        RCON_PACKET_HEADER_LENGTH)
    ⟨some size, some request_id, some typeVal, body⟩

/-! ### The `SourceRcon` session

The socket is modelled as a trace of read events: each `sock.recv` call in
`receive_all` either yields a chunk of at most `bytes_in` bytes or raises a
`socket.error`; an exhausted trace is treated like an error (a blocking
read that only ends in the socket timeout, which `except socket.error`
also catches). -/

/-- One result of `sock.recv` inside the receive loop. -/
inductive ReadEvent where
  | chunk : List Nat → ReadEvent
  | err : ReadEvent
  deriving DecidableEq, Repr

/-- `SourceRcon.receive_all`: accumulate chunks; stop on an empty chunk
(peer closed), after a chunk shorter than `bytes_in`, or on a socket error
(logged, loop exits with what was accumulated so far). -/
def receive_all (bytes_in : Nat) : List ReadEvent → List Nat
  | [] => []
  | ReadEvent.err :: _ => []
  | ReadEvent.chunk part :: rest =>
    if part = [] then []
    else if part.length < bytes_in then part
    else part ++ receive_all bytes_in rest

/-- `SourceRcon.AUTH_FAILED_RESPONSE`. -/
def AUTH_FAILED_RESPONSE : Int := -1

/-- `SourceRcon.check_auth_response`: unpack the bytes; fail when the size
field is unset or the type is not `SERVERDATA_AUTH_RESPONSE.value`;
otherwise succeed iff the id differs from the `-1` sentinel. -/
def check_auth_response (auth_response_packet : List Nat) : Bool :=
  let unpacked_packet := unpack auth_response_packet
  if unpacked_packet.size = none ∨
      unpacked_packet.type ≠ some SERVERDATA_AUTH_RESPONSE then
    false
  else
    decide (unpacked_packet.id ≠ some AUTH_FAILED_RESPONSE)

/-- The network behaviour one `send_command` call observes: whether
`socket.connect` succeeds, the read events answering the auth packet, and
the read events answering the command packet. -/
structure NetEnv where
  connect_ok : Bool
  auth_reads : List ReadEvent
  cmd_reads : List ReadEvent

/-- `SourceRcon.create_packet`: pack a body with the given request id and
packet type value (the call sites use `request_id = 1`). -/
def create_packet (command : PyStr) (request_id : Int) (typeVal : Int) :
    Except PyErr (List Nat) :=
  pack command request_id typeVal

/-- `SourceRcon.auth_to_rcon`: send an auth packet carrying the password
(packing can raise on a non-ASCII password), read the response, and check
it. -/
def auth_to_rcon (env : NetEnv) (password : PyStr) : Except PyErr Bool := do
  let _auth_packet ← create_packet password 1 SERVERDATA_AUTH
  .ok (check_auth_response (receive_all 4096 env.auth_reads))

/-- `SourceRcon.execute_command`: send the command packet (packing can
raise on a non-ASCII command), read one response, unpack it, return its
body. -/
def execute_command (env : NetEnv) (command : PyStr) : Except PyErr PyStr := do
  let _command_packet ← create_packet command 1 SERVERDATA_EXECCOMMAND
  .ok (unpack (receive_all 4096 env.cmd_reads)).body

/-- `str.lower` restricted to ASCII case mapping, which is all that
comparing against `"broadcast"` exercises. -/
def pyLower (s : PyStr) : PyStr :=
  s.map (fun c => if 65 ≤ c ∧ c ≤ 90 then c + 32 else c)

/-- `" ".join(args)`. -/
def joinSpace (args : List PyStr) : PyStr := (args.intersperse [32]).flatten

/-- `msg.replace(" ", "\x1F")`. -/
def replaceSpaces (msg : PyStr) : PyStr :=
  msg.map (fun c => if c = 32 then 31 else c)

/-- The command-text assembly inlined in `SourceRcon.send_command`: for a
case-insensitive `"broadcast"`, take `args[0]` (raising `IndexError` when
`args` is empty) with spaces replaced by `\x1F`; otherwise join all
arguments with spaces.  Either way the result is
`f"{command} {...}"`. -/
def buildCommandText (command : PyStr) (args : List PyStr) : Except PyErr PyStr :=
  if pyLower command = pyOfString "broadcast" then
    match args with
    | [] => .error .indexError
    | broadcast_msg :: _ =>
      .ok (command ++ [32] ++ replaceSpaces broadcast_msg)
  else
    .ok (command ++ [32] ++ joinSpace args)

/-- `SourceRcon.send_command`: connect (a failure is caught and yields the
fixed string), authenticate (a clean failure yields the fixed string, but
packing the password can raise), assemble the command text, execute it and
return the response body.  Exceptions raised along the way propagate as
`Except.error`. -/
def send_command (env : NetEnv) (password : PyStr) (command : PyStr)
    (args : List PyStr) : Except PyErr PyStr :=
  if env.connect_ok = false then
    .ok (pyOfString "Failed to establish connection.")
  else do
    let authed ← auth_to_rcon env password
    if authed = false then
      .ok (pyOfString "Authentication failed. not running command.")
    else do
      let cmdText ← buildCommandText command args
      execute_command env cmdText

/-! ### Spec-side description of the receive loop

Following the spec's wording for the reassembly loop: the result is the
concatenation of the leading run of full chunks, followed by the first
stopping chunk when that chunk is non-empty but short (it is included);
an empty chunk, a socket error, or the end of the trace contributes
nothing. -/

/-- A read event the loop passes through without stopping: a non-empty
chunk of exactly the requested size. -/
def isFullChunk (n : Nat) : ReadEvent → Bool
  | ReadEvent.chunk p => decide (p.length = n) && decide (p ≠ [])
  | ReadEvent.err => false

/-- The data of a chunk event. -/
def chunkData : ReadEvent → List Nat
  | ReadEvent.chunk p => p
  | ReadEvent.err => []

/-- The spec's description of `receive_all`: concatenate the leading full
chunks, then include the first non-full event exactly when it is a
non-empty chunk shorter than the requested size. -/
def receiveSpec (n : Nat) (evs : List ReadEvent) : List Nat :=
  ((evs.takeWhile (isFullChunk n)).map chunkData).flatten ++
    match evs.dropWhile (isFullChunk n) with
    | ReadEvent.chunk p :: _ => if p ≠ [] ∧ p.length < n then p else []
    | _ => []

/-! ### Helper lemmas -/

theorem pyEncodeAscii_of_ascii (s : PyStr) (h : ∀ c ∈ s, c < 128) :
    pyEncodeAscii s = some s := by
  unfold pyEncodeAscii
  rw [if_pos]
  simpa [List.all_eq_true] using h

theorem encI32_length (n : Int) : (encI32 n).length = 4 := rfl

theorem decI32_encI32 (n : Int) (h : i32InRange n) : decI32 (encI32 n) = n := by
  obtain ⟨h1, h2⟩ := h
  have hnn : 0 ≤ n % 4294967296 := Int.emod_nonneg n (by norm_num)
  simp only [decI32, encI32, List.foldr]
  split <;> omega

theorem utf8Start_ascii (b : Nat) (h : b < 128) : utf8Start b = ([b], utf8Init) := by
  unfold utf8Start
  rw [if_pos h]

theorem utf8DecodeAux_ascii (l : List Nat) (h : ∀ c ∈ l, c < 128) :
    utf8DecodeAux utf8Init l = l := by
  induction l with
  | nil => rfl
  | cons b rest ih =>
    have hb : b < 128 := h b (List.mem_cons_self b rest)
    have hrest : ∀ c ∈ rest, c < 128 := fun c hc => h c (List.mem_cons_of_mem b hc)
    have h0 : utf8Init.need = 0 := rfl
    simp only [utf8DecodeAux]
    rw [if_pos h0, utf8Start_ascii b hb]
    simpa using ih hrest

theorem utf8DecodeReplace_ascii (l : List Nat) (h : ∀ c ∈ l, c < 128) :
    utf8DecodeReplace l = l :=
  utf8DecodeAux_ascii l h

/-- On an ASCII body within int32 size bounds, `pack` succeeds and its
output has the explicit header-body-terminators shape. -/
theorem pack_of_ascii (body : PyStr) (request_id typeVal : Int)
    (hb : ∀ c ∈ body, c < 128) (hid : i32InRange request_id)
    (ht : i32InRange typeVal) (hlen : (body.length : Int) + 11 < 2147483648) :
    pack body request_id typeVal =
      .ok (encI32 ((body.length : Int) + 11) ++ encI32 request_id ++
        encI32 typeVal ++ body ++ [0, 0]) := by
  have hrange : i32InRange (((body ++ [0]).length : Int) + 10) := by
    constructor <;> (simp [List.length_append]; omega)
  simp only [pack, pyEncodeAscii_of_ascii body hb]
  rw [if_pos ⟨hrange, hid, ht⟩]
  have hsz : (((body ++ [0]).length : Int) + 10) = (body.length : Int) + 11 := by
    simp [List.length_append]; ring
  rw [hsz]
  simp [List.append_assoc]

/-- `unpack` of a packet in explicit header-body-terminators shape. -/
theorem unpack_append (s i t : Int) (mid : List Nat) :
    unpack (encI32 s ++ encI32 i ++ encI32 t ++ mid ++ [0, 0]) =
      ⟨some (decI32 (encI32 s)), some (decI32 (encI32 i)),
        some (decI32 (encI32 t)), utf8DecodeReplace mid⟩ := by
  have e1 := encI32_length s
  have e2 := encI32_length i
  have e3 := encI32_length t
  have hlen : (encI32 s ++ encI32 i ++ encI32 t ++ mid ++ [0, 0]).length =
      mid.length + 14 := by
    simp [List.length_append, e1, e2, e3]
    omega
  have htake4 : (encI32 s ++ encI32 i ++ encI32 t ++ mid ++ [0, 0]).take 4 =
      encI32 s := by
    rw [show encI32 s ++ encI32 i ++ encI32 t ++ mid ++ [0, 0] =
      encI32 s ++ (encI32 i ++ (encI32 t ++ (mid ++ [0, 0]))) by
        simp [List.append_assoc]]
    exact List.take_left' e1
  have hdrop4 : (encI32 s ++ encI32 i ++ encI32 t ++ mid ++ [0, 0]).drop 4 =
      encI32 i ++ (encI32 t ++ (mid ++ [0, 0])) := by
    rw [show encI32 s ++ encI32 i ++ encI32 t ++ mid ++ [0, 0] =
      encI32 s ++ (encI32 i ++ (encI32 t ++ (mid ++ [0, 0]))) by
        simp [List.append_assoc]]
    exact List.drop_left' e1
  have hid4 : ((encI32 s ++ encI32 i ++ encI32 t ++ mid ++ [0, 0]).drop 4).take 4 =
      encI32 i := by
    rw [hdrop4]
    exact List.take_left' e2
  have hdrop8 : (encI32 s ++ encI32 i ++ encI32 t ++ mid ++ [0, 0]).drop 8 =
      encI32 t ++ (mid ++ [0, 0]) := by
    rw [show encI32 s ++ encI32 i ++ encI32 t ++ mid ++ [0, 0] =
      (encI32 s ++ encI32 i) ++ (encI32 t ++ (mid ++ [0, 0])) by
        simp [List.append_assoc]]
    exact List.drop_left' (by simp [List.length_append, e1, e2])
  have hty4 : ((encI32 s ++ encI32 i ++ encI32 t ++ mid ++ [0, 0]).drop 8).take 4 =
      encI32 t := by
    rw [hdrop8]
    exact List.take_left' e3
  have hbody : ((encI32 s ++ encI32 i ++ encI32 t ++ mid ++ [0, 0]).take
      ((encI32 s ++ encI32 i ++ encI32 t ++ mid ++ [0, 0]).length -
        RCON_PACKET_TERMINATOR_LENGTH)).drop RCON_PACKET_HEADER_LENGTH = mid := by
    rw [hlen]
    rw [show encI32 s ++ encI32 i ++ encI32 t ++ mid ++ [0, 0] =
      ((encI32 s ++ encI32 i ++ encI32 t) ++ mid) ++ [0, 0] by
        simp [List.append_assoc]]
    have ht1 : (((encI32 s ++ encI32 i ++ encI32 t) ++ mid) ++ [0, 0]).take
        (mid.length + 14 - RCON_PACKET_TERMINATOR_LENGTH) =
        (encI32 s ++ encI32 i ++ encI32 t) ++ mid := by
      apply List.take_left'
      simp [List.length_append, e1, e2, e3, RCON_PACKET_TERMINATOR_LENGTH]
      omega
    rw [ht1]
    exact List.drop_left' (by simp [List.length_append, e1, e2, e3,
      RCON_PACKET_HEADER_LENGTH])
  unfold unpack
  rw [if_neg (by rw [hlen]; unfold RCON_PACKET_HEADER_LENGTH; omega)]
  rw [htake4, hid4, hty4, hbody]

/-! ### Claim theorems -/

/-- C1: the claim says the size field written by `RconPacket.pack` equals the
total encoded length minus 4, but the code computes `len(body_encoded) + 10`
where `body_encoded` already contains one terminator, as its own comment
`len(body) + 10` does not: on the empty body the packet is 14 bytes long
while its size field decodes to 11, not 14 - 4 = 10. -/
theorem pack_size_field_is_len_sub_3 :
    pack (pyOfString "") 1 SERVERDATA_EXECCOMMAND =
      .ok [11, 0, 0, 0, 1, 0, 0, 0, 2, 0, 0, 0, 0, 0] ∧
    decI32 [11, 0, 0, 0] = 11 ∧
    ([11, 0, 0, 0, 1, 0, 0, 0, 2, 0, 0, 0, 0, 0] : List Nat).length - 4 = 10 :=
  ⟨rfl, by decide, by decide⟩

/-- C3: decoding the encoding round-trips: for every ASCII body and every
int32 id, `unpack` of `pack` with type `SERVERDATA_EXECCOMMAND` recovers the
body, the id, and the EXEC_COMMAND type value. -/
theorem unpack_pack_roundtrip (body : PyStr) (request_id : Int)
    (hb : ∀ c ∈ body, c < 128) (hid : i32InRange request_id)
    (hlen : (body.length : Int) + 11 < 2147483648) :
    ∃ bs, pack body request_id SERVERDATA_EXECCOMMAND = .ok bs ∧
      (unpack bs).body = body ∧ (unpack bs).id = some request_id ∧
      (unpack bs).type = some SERVERDATA_EXECCOMMAND := by
  have ht : i32InRange SERVERDATA_EXECCOMMAND := by decide
  refine ⟨_, pack_of_ascii body request_id SERVERDATA_EXECCOMMAND hb hid ht hlen,
    ?_, ?_, ?_⟩
  · rw [unpack_append]
    exact utf8DecodeReplace_ascii body hb
  · rw [unpack_append]
    show some (decI32 (encI32 request_id)) = some request_id
    rw [decI32_encI32 _ hid]
  · rw [unpack_append]
    show some (decI32 (encI32 SERVERDATA_EXECCOMMAND)) = some SERVERDATA_EXECCOMMAND
    rw [decI32_encI32 _ ht]

theorem unpack_pack_roundtrip_witness :
    ∃ bs, pack (pyOfString "hi") 1 SERVERDATA_EXECCOMMAND = .ok bs ∧
      (unpack bs).body = pyOfString "hi" ∧ (unpack bs).id = some 1 ∧
      (unpack bs).type = some SERVERDATA_EXECCOMMAND :=
  unpack_pack_roundtrip (pyOfString "hi") 1 (by decide) (by decide) (by decide)

/-- C4: `check_auth_response` succeeds exactly when the decoded packet has a
set size field, its type equals the AUTH_RESPONSE value 2, and its id is not
the -1 sentinel; in particular an AUTH_RESPONSE packet with id -1 fails, the
same packet with id 0 succeeds, and a short undecodable response fails. -/
theorem check_auth_response_iff :
    (∀ b : List Nat, check_auth_response b = true ↔
      ((unpack b).size ≠ none ∧
        (unpack b).type = some SERVERDATA_AUTH_RESPONSE ∧
        (unpack b).id ≠ some (-1))) ∧
    check_auth_response [10, 0, 0, 0, 255, 255, 255, 255, 2, 0, 0, 0, 0, 0] = false ∧
    check_auth_response [10, 0, 0, 0, 0, 0, 0, 0, 2, 0, 0, 0, 0, 0] = true ∧
    check_auth_response [1, 2, 3] = false := by
  refine ⟨fun b => ?_, by decide, by decide, by decide⟩
  unfold check_auth_response AUTH_FAILED_RESPONSE
  show (if (unpack b).size = none ∨ (unpack b).type ≠ some SERVERDATA_AUTH_RESPONSE
      then false else decide ((unpack b).id ≠ some (-1))) = true ↔ _
  split
  · simp only [Bool.false_eq_true, false_iff]
    rintro ⟨h1, h2, h3⟩
    rename_i hcond
    rcases hcond with hc | hc
    · exact h1 hc
    · exact hc h2
  · rename_i hcond
    push_neg at hcond
    simp only [decide_eq_true_eq]
    exact ⟨fun h3 => ⟨hcond.1, hcond.2, h3⟩, fun ⟨_, _, h3⟩ => h3⟩

/-- C5: `RconPacket.unpack` of any byte string of length 0 through 11
returns, without raising, the sentinel packet whose size, id and type are
all unset and whose body is the string "Invalid packet". -/
theorem unpack_short_is_sentinel (b : List Nat) (h : b.length ≤ 11) :
    unpack b = ⟨none, none, none, pyOfString "Invalid packet"⟩ := by
  unfold unpack
  rw [if_pos (by unfold RCON_PACKET_HEADER_LENGTH; omega)]

theorem unpack_short_is_sentinel_witness :
    ([1, 2, 3] : List Nat).length ≤ 11 ∧
      unpack [1, 2, 3] = ⟨none, none, none, pyOfString "Invalid packet"⟩ :=
  ⟨by decide, unpack_short_is_sentinel [1, 2, 3] (by decide)⟩

/-- C6: for every command name that equals "broadcast" case-insensitively
and every non-empty argument list, the command text is the command name, a
space, and the first argument with each space replaced by 0x1F; remaining
arguments are ignored. -/
theorem broadcast_command_text (command broadcast_msg : PyStr)
    (rest : List PyStr) (h : pyLower command = pyOfString "broadcast") :
    buildCommandText command (broadcast_msg :: rest) =
      .ok (command ++ [32] ++ replaceSpaces broadcast_msg) := by
  unfold buildCommandText
  rw [if_pos h]

theorem broadcast_command_text_witness :
    pyLower (pyOfString "broadcast") = pyOfString "broadcast" ∧
      buildCommandText (pyOfString "broadcast") [pyOfString "hello world"] =
        .ok (pyOfString "broadcast hello\x1Fworld") := by
  refine ⟨by decide, ?_⟩
  rw [broadcast_command_text (pyOfString "broadcast") (pyOfString "hello world")
    [] (by decide)]
  rfl

/-- C7: for every command name not equal to "broadcast" case-insensitively,
the command text is the command name, a space, and the arguments joined by
single spaces; with an empty argument list the trailing space remains. -/
theorem non_broadcast_command_text (command : PyStr) (args : List PyStr)
    (h : pyLower command ≠ pyOfString "broadcast") :
    buildCommandText command args = .ok (command ++ [32] ++ joinSpace args) := by
  unfold buildCommandText
  rw [if_neg h]

theorem non_broadcast_command_text_witness :
    buildCommandText (pyOfString "info") [pyOfString "a", pyOfString "b"] =
        .ok (pyOfString "info a b") ∧
      buildCommandText (pyOfString "info") [] = .ok (pyOfString "info ") := by
  constructor
  · rw [non_broadcast_command_text (pyOfString "info")
      [pyOfString "a", pyOfString "b"] (by decide)]
    rfl
  · rw [non_broadcast_command_text (pyOfString "info") [] (by decide)]
    rfl

/-- C8: for every ASCII body, the size field `pack` writes into the encoded
bytes equals the length of the body-with-one-terminator plus 10. -/
theorem pack_size_field_body_encoded_plus_10 (body : PyStr)
    (request_id typeVal : Int) (hb : ∀ c ∈ body, c < 128)
    (hid : i32InRange request_id) (ht : i32InRange typeVal)
    (hlen : (body.length : Int) + 11 < 2147483648) :
    ∃ bs, pack body request_id typeVal = .ok bs ∧
      decI32 (bs.take 4) = ((body ++ [0]).length : Int) + 10 := by
  refine ⟨_, pack_of_ascii body request_id typeVal hb hid ht hlen, ?_⟩
  rw [show encI32 ((body.length : Int) + 11) ++ encI32 request_id ++
      encI32 typeVal ++ body ++ [0, 0] =
      encI32 ((body.length : Int) + 11) ++ (encI32 request_id ++
        (encI32 typeVal ++ (body ++ [0, 0]))) by simp [List.append_assoc]]
  rw [List.take_left' (encI32_length _)]
  rw [decI32_encI32 _ ⟨by omega, by omega⟩]
  simp [List.length_append]
  ring

theorem pack_size_field_body_encoded_plus_10_witness :
    ∃ bs, pack (pyOfString "hi") 1 SERVERDATA_EXECCOMMAND = .ok bs ∧
      decI32 (bs.take 4) = ((pyOfString "hi" ++ [0]).length : Int) + 10 :=
  pack_size_field_body_encoded_plus_10 (pyOfString "hi") 1
    SERVERDATA_EXECCOMMAND (by decide) (by decide) (by decide) (by decide)

/-- C10: for every byte string of length exactly 12 or 13, `unpack` returns
the three little-endian int32 header fields of its first 12 bytes and an
empty body; for a 13-byte input the byte at offset 12 is discarded. -/
theorem unpack_len_12_or_13 (b : List Nat)
    (h : b.length = 12 ∨ b.length = 13) :
    unpack b = ⟨some (decI32 (b.take 4)), some (decI32 ((b.drop 4).take 4)),
      some (decI32 ((b.drop 8).take 4)), []⟩ := by
  unfold unpack
  rw [if_neg (by unfold RCON_PACKET_HEADER_LENGTH; omega)]
  have hsl : (b.take (b.length - RCON_PACKET_TERMINATOR_LENGTH)).drop
      RCON_PACKET_HEADER_LENGTH = [] := by
    apply List.eq_nil_of_length_eq_zero
    simp [List.length_drop, List.length_take, RCON_PACKET_TERMINATOR_LENGTH,
      RCON_PACKET_HEADER_LENGTH]
    omega
  rw [hsl]
  rfl

theorem unpack_len_12_or_13_witness :
    unpack [9, 0, 0, 0, 1, 0, 0, 0, 2, 0, 0, 0, 7] =
      ⟨some (decI32 ([9, 0, 0, 0, 1, 0, 0, 0, 2, 0, 0, 0, 7].take 4)),
        some (decI32 (([9, 0, 0, 0, 1, 0, 0, 0, 2, 0, 0, 0, 7] : List Nat).drop 4
          |>.take 4)),
        some (decI32 (([9, 0, 0, 0, 1, 0, 0, 0, 2, 0, 0, 0, 7] : List Nat).drop 8
          |>.take 4)), []⟩ :=
  unpack_len_12_or_13 [9, 0, 0, 0, 1, 0, 0, 0, 2, 0, 0, 0, 7] (by decide)

/-- C9: over any trace of socket reads whose chunks are at most 4096 bytes,
`receive_all` returns the concatenation of the leading full 4096-byte
chunks followed by the first stopping chunk when it is non-empty and short
(included), while an empty chunk or a socket error stops the loop with
only the previously accumulated bytes. -/
theorem receive_all_eq_receiveSpec (evs : List ReadEvent)
    (h : ∀ e ∈ evs, (chunkData e).length ≤ 4096) :
    receive_all 4096 evs = receiveSpec 4096 evs := by
  induction evs with
  | nil => rfl
  | cons e rest ih =>
    have hrest : ∀ x ∈ rest, (chunkData x).length ≤ 4096 :=
      fun x hx => h x (List.mem_cons_of_mem e hx)
    cases e with
    | err =>
      have hf : ¬ isFullChunk 4096 ReadEvent.err = true := by
        simp [isFullChunk]
      simp [receive_all, receiveSpec, List.takeWhile_cons_of_neg hf,
        List.dropWhile_cons_of_neg hf]
    | chunk p =>
      by_cases hp0 : p = []
      · subst hp0
        have hf : ¬ isFullChunk 4096 (ReadEvent.chunk []) = true := by
          simp [isFullChunk]
        simp [receive_all, receiveSpec, List.takeWhile_cons_of_neg hf,
          List.dropWhile_cons_of_neg hf]
      · by_cases hps : p.length < 4096
        · have hf : ¬ isFullChunk 4096 (ReadEvent.chunk p) = true := by
            simp [isFullChunk]
            intro hlen
            omega
          have hra : receive_all 4096 (ReadEvent.chunk p :: rest) = p := by
            unfold receive_all
            rw [if_neg hp0, if_pos hps]
          rw [hra]
          unfold receiveSpec
          rw [List.takeWhile_cons_of_neg hf, List.dropWhile_cons_of_neg hf]
          simp [hp0, hps]
        · have hlen : p.length = 4096 := by
            have := h (ReadEvent.chunk p) (List.mem_cons_self _ _)
            simp [chunkData] at this
            omega
          have hf : isFullChunk 4096 (ReadEvent.chunk p) = true := by
            simp [isFullChunk, hlen, hp0]
          have hra : receive_all 4096 (ReadEvent.chunk p :: rest) =
              p ++ receive_all 4096 rest := by
            show (if p = [] then [] else if p.length < 4096 then p
              else p ++ receive_all 4096 rest) = p ++ receive_all 4096 rest
            rw [if_neg hp0, if_neg hps]
          have hrs : receiveSpec 4096 (ReadEvent.chunk p :: rest) =
              p ++ receiveSpec 4096 rest := by
            unfold receiveSpec
            rw [List.takeWhile_cons_of_pos hf, List.dropWhile_cons_of_pos hf]
            simp [chunkData, List.append_assoc]
          rw [hra, hrs, ih hrest]

theorem receive_all_eq_receiveSpec_witness :
    (∀ e ∈ [ReadEvent.chunk [1, 2, 3], ReadEvent.err],
        (chunkData e).length ≤ 4096) ∧
      receive_all 4096 [ReadEvent.chunk [1, 2, 3], ReadEvent.err] =
        receiveSpec 4096 [ReadEvent.chunk [1, 2, 3], ReadEvent.err] :=
  ⟨by decide, receive_all_eq_receiveSpec _ (by decide)⟩

/-! ### Lemmas about the command builder and the facade -/

theorem replaceSpaces_length (a : PyStr) : (replaceSpaces a).length = a.length :=
  List.length_map _ _

theorem replaceSpaces_ascii (a : PyStr) (h : ∀ c ∈ a, c < 128) :
    ∀ c ∈ replaceSpaces a, c < 128 := by
  intro c hc
  obtain ⟨x, hx, hfx⟩ := List.mem_map.mp hc
  split at hfx
  · omega
  · subst hfx; exact h x hx

theorem joinSpace_cons_cons (a b : PyStr) (t : List PyStr) :
    joinSpace (a :: b :: t) = a ++ [32] ++ joinSpace (b :: t) := by
  simp [joinSpace, List.intersperse_cons_cons, List.append_assoc]

theorem joinSpace_length (args : List PyStr) :
    (joinSpace args).length ≤ (args.map List.length).sum + args.length := by
  induction args with
  | nil => simp [joinSpace]
  | cons a rest ih =>
    cases rest with
    | nil => simp [joinSpace, List.intersperse]
    | cons b t =>
      rw [joinSpace_cons_cons]
      simp only [List.length_append, List.map_cons, List.sum_cons,
        List.length_cons, List.length_singleton, List.length_nil] at *
      omega

theorem joinSpace_ascii (args : List PyStr)
    (h : ∀ a ∈ args, ∀ c ∈ a, c < 128) : ∀ c ∈ joinSpace args, c < 128 := by
  induction args with
  | nil => intro c hc; simp [joinSpace] at hc
  | cons a rest ih =>
    cases rest with
    | nil =>
      intro c hc
      simp only [joinSpace, List.intersperse, List.flatten,
        List.append_nil] at hc
      exact h a (by simp) c hc
    | cons b t =>
      intro c hc
      rw [joinSpace_cons_cons] at hc
      simp only [List.append_assoc, List.mem_append, List.mem_singleton] at hc
      rcases hc with hc | hc | hc
      · exact h a (by simp) c hc
      · omega
      · exact ih (fun x hx => h x (List.mem_cons_of_mem a hx)) c hc

theorem buildCommandText_ok (command : PyStr) (args : List PyStr)
    (hbc : pyLower command = pyOfString "broadcast" → args ≠ []) :
    ∃ t, buildCommandText command args = .ok t ∧
      t.length ≤ command.length + 1 + (args.map List.length).sum + args.length := by
  unfold buildCommandText
  by_cases hb : pyLower command = pyOfString "broadcast"
  · rw [if_pos hb]
    cases args with
    | nil => exact absurd rfl (hbc hb)
    | cons a rest =>
      refine ⟨_, rfl, ?_⟩
      simp only [List.length_append, replaceSpaces_length, List.map_cons,
        List.sum_cons, List.length_cons, List.length_singleton, List.length_nil]
      omega
  · rw [if_neg hb]
    refine ⟨_, rfl, ?_⟩
    have := joinSpace_length args
    simp only [List.length_append, List.length_singleton]
    omega

theorem buildCommandText_ascii (command : PyStr) (args : List PyStr) (t : PyStr)
    (hcmd : ∀ c ∈ command, c < 128)
    (hargs : ∀ a ∈ args, ∀ c ∈ a, c < 128)
    (ht : buildCommandText command args = .ok t) : ∀ c ∈ t, c < 128 := by
  unfold buildCommandText at ht
  by_cases hb : pyLower command = pyOfString "broadcast"
  · rw [if_pos hb] at ht
    cases args with
    | nil => cases ht
    | cons a rest =>
      cases ht
      intro c hc
      simp only [List.append_assoc, List.mem_append, List.mem_singleton] at hc
      rcases hc with hc | hc | hc
      · exact hcmd c hc
      · omega
      · exact replaceSpaces_ascii a (hargs a (by simp)) c hc
  · rw [if_neg hb] at ht
    cases ht
    intro c hc
    simp only [List.append_assoc, List.mem_append, List.mem_singleton] at hc
    rcases hc with hc | hc | hc
    · exact hcmd c hc
    · omega
    · exact joinSpace_ascii args hargs c hc

theorem auth_to_rcon_of_ascii (env : NetEnv) (password : PyStr)
    (hpw : ∀ c ∈ password, c < 128)
    (hpl : (password.length : Int) + 11 < 2147483648) :
    auth_to_rcon env password =
      .ok (check_auth_response (receive_all 4096 env.auth_reads)) := by
  unfold auth_to_rcon create_packet
  rw [pack_of_ascii password 1 SERVERDATA_AUTH hpw (by decide) (by decide) hpl]
  rfl

theorem execute_command_of_ascii (env : NetEnv) (command : PyStr)
    (hc : ∀ c ∈ command, c < 128)
    (hl : (command.length : Int) + 11 < 2147483648) :
    execute_command env command =
      .ok (unpack (receive_all 4096 env.cmd_reads)).body := by
  unfold execute_command create_packet
  rw [pack_of_ascii command 1 SERVERDATA_EXECCOMMAND hc (by decide) (by decide) hl]
  rfl

/-- C2 fails as stated: with a connection and a successful authentication,
`send_command` on `"broadcast"` with an empty argument list raises
`IndexError` from `args[0]`, and on a non-ASCII command raises
`UnicodeEncodeError` from `body.encode("ascii")`; neither is converted into
a returned string. -/
theorem send_command_raises_counterexample :
    send_command
        ⟨true, [ReadEvent.chunk [10, 0, 0, 0, 0, 0, 0, 0, 2, 0, 0, 0, 0, 0]], []⟩
        (pyOfString "p") (pyOfString "broadcast") [] = .error .indexError ∧
      send_command
        ⟨true, [ReadEvent.chunk [10, 0, 0, 0, 0, 0, 0, 0, 2, 0, 0, 0, 0, 0]], []⟩
        (pyOfString "p") [233] [] = .error .unicodeEncodeError :=
  ⟨rfl, rfl⟩

/-- C2 (amended): provided the password and the command text are ASCII and
within int32 size bounds, and the argument list is non-empty whenever the
command is "broadcast" case-insensitively, `send_command` returns a string
for every input: the fixed string "Failed to establish connection." when
the connection fails, the fixed string "Authentication failed. not running
command." when authentication fails, and otherwise the decoded response
body. -/
theorem send_command_returns_string (env : NetEnv) (password command : PyStr)
    (args : List PyStr)
    (hpw : ∀ c ∈ password, c < 128)
    (hpl : (password.length : Int) + 11 < 2147483648)
    (hcmd : ∀ c ∈ command, c < 128)
    (hargs : ∀ a ∈ args, ∀ c ∈ a, c < 128)
    (hbc : pyLower command = pyOfString "broadcast" → args ≠ [])
    (hclen : command.length + 1 + (args.map List.length).sum + args.length + 11 <
      2147483648) :
    ∃ s, send_command env password command args = .ok s ∧
      (env.connect_ok = false →
        s = pyOfString "Failed to establish connection.") ∧
      (env.connect_ok = true →
        check_auth_response (receive_all 4096 env.auth_reads) = false →
        s = pyOfString "Authentication failed. not running command.") := by
  cases hconn : env.connect_ok with
  | false =>
    refine ⟨pyOfString "Failed to establish connection.", ?_, fun _ => rfl,
      fun htrue => absurd htrue (by decide)⟩
    unfold send_command
    rw [if_pos hconn]
  | true =>
    have hauth := auth_to_rcon_of_ascii env password hpw hpl
    obtain ⟨t, hbt, htlen⟩ := buildCommandText_ok command args hbc
    have htascii := buildCommandText_ascii command args t hcmd hargs hbt
    have htlen2 : (t.length : Int) + 11 < 2147483648 := by omega
    have hexec := execute_command_of_ascii env t htascii htlen2
    cases hca : check_auth_response (receive_all 4096 env.auth_reads) with
    | false =>
      refine ⟨pyOfString "Authentication failed. not running command.", ?_,
        fun hfalse => absurd hfalse (by decide), fun _ _ => rfl⟩
      unfold send_command
      rw [hconn, if_neg (by decide)]
      rw [hauth, hca]
      rfl
    | true =>
      refine ⟨(unpack (receive_all 4096 env.cmd_reads)).body, ?_,
        fun hfalse => absurd hfalse (by decide),
        fun _ hfalse => absurd hfalse (by decide)⟩
      unfold send_command
      rw [hconn, if_neg (by decide)]
      rw [hauth, hca]
      show buildCommandText command args >>= execute_command env = _
      rw [hbt]
      show execute_command env t = _
      rw [hexec]

theorem send_command_returns_string_witness :
    ∃ s, send_command
        ⟨true, [ReadEvent.chunk [10, 0, 0, 0, 0, 0, 0, 0, 2, 0, 0, 0, 0, 0]],
          [ReadEvent.chunk
            [13, 0, 0, 0, 1, 0, 0, 0, 0, 0, 0, 0, 112, 111, 110, 103, 0, 0]]⟩
        (pyOfString "p") (pyOfString "ping") [] = .ok s ∧
      (true = false → s = pyOfString "Failed to establish connection.") ∧
      (true = true →
        check_auth_response (receive_all 4096
          [ReadEvent.chunk [10, 0, 0, 0, 0, 0, 0, 0, 2, 0, 0, 0, 0, 0]]) = false →
        s = pyOfString "Authentication failed. not running command.") :=
  send_command_returns_string _ (pyOfString "p") (pyOfString "ping") []
    (by decide) (by decide) (by decide) (by decide) (by decide) (by decide)

end PalworldRcon
